import Mathlib

/-
  Verification of the algolia-cli record-transformation tool.

  The TypeScript source is shallowly embedded: JavaScript numbers are
  modelled as rationals extended with NaN and the two infinities, records
  as association lists from field names to a JS value union, and each
  policy's store traffic as an explicit list of bulk operations.
-/

set_option maxRecDepth 8192

/-- Model of a JavaScript number: a finite rational or one of the
non-finite values NaN, Infinity, -Infinity. -/
inductive JSNum where
  | nan
  | posInf
  | negInf
  | fin (q : ℚ)
deriving DecidableEq

/-- JavaScript isFinite. -/
def JSNum.isFinite : JSNum → Bool
  | .fin _ => true
  | _ => false

/-- JavaScript comparison `x > c` against a finite constant; NaN compares
false, Infinity compares true. -/
def JSNum.gtQ : JSNum → ℚ → Bool
  | .nan, _ => false
  | .posInf, _ => true
  | .negInf, _ => false
  | .fin q, c => decide (c < q)

/-- JavaScript comparison `x <= c` against a finite constant; NaN compares
false. -/
def JSNum.leQ : JSNum → ℚ → Bool
  | .nan, _ => false
  | .posInf, _ => false
  | .negInf, _ => true
  | .fin q, c => decide (q ≤ c)

/-- JavaScript strict equality between a number and a finite rational. -/
def JSNum.eqQ : JSNum → ℚ → Bool
  | .fin q, c => decide (q = c)
  | _, _ => false

/-- Math.floor(x / c) for a positive constant divisor; Math.floor maps the
non-finite values to themselves. -/
def JSNum.floorDiv : JSNum → ℚ → JSNum
  | .nan, _ => .nan
  | .posInf, _ => .posInf
  | .negInf, _ => .negInf
  | .fin q, c => .fin ((⌊q / c⌋ : ℤ) : ℚ)

/-- Embeds convertMsToSeconds from dateUtils: Math.floor(timestampMs / 1000). -/
def convertMsToSeconds (timestampMs : JSNum) : JSNum :=
  timestampMs.floorDiv 1000

/-- Embeds convertMicrosecondsToSeconds from dateUtils:
Math.floor(timestampMicros / 1000000). -/
def convertMicrosecondsToSeconds (timestampMicros : JSNum) : JSNum :=
  timestampMicros.floorDiv 1000000

/-- Embeds normalizeTimestamp from dateUtils (the microsecond-aware version,
the one the unit tests import): inputs above 999999999999999 are treated as
microseconds, inputs above 9999999999 as milliseconds, anything else is
returned unchanged. -/
def normalizeTimestamp (input : JSNum) : JSNum :=
  if input.gtQ 999999999999999 then convertMicrosecondsToSeconds input
  else if input.gtQ 9999999999 then convertMsToSeconds input
  else input

/-- Embeds the stale duplicate of normalizeTimestamp kept in the legacy
utils copy, which lacks the microsecond branch. -/
def normalizeTimestampLegacy (input : JSNum) : JSNum :=
  if input.gtQ 9999999999 then convertMsToSeconds input
  else input

/-- Embeds the numeric branch of SanitizeDateValuesAction.attemptDateConversion:
reject non-finite or non-positive numbers, normalize by magnitude, and accept
the normalized value only when it is finite, positive and at most 2147483647. -/
def attemptDateConversionNum (value : JSNum) : Option ℚ :=
  if !value.isFinite || value.leQ 0 then none
  else
    match normalizeTimestamp value with
    | .fin n => if 0 < n ∧ n ≤ 2147483647 then some n else none
    | _ => none

/-- Model of a JavaScript value as stored in an index record. -/
inductive JSValue where
  | vNull
  | vUndefined
  | vBool (b : Bool)
  | vNum (n : JSNum)
  | vStr (s : String)
  | vObj (fields : List (String × JSValue))
  | vArr (elems : List JSValue)

/-- A record object: an association list from field name to value (first
binding wins, mirroring unique JavaScript object keys). -/
abbrev JSRec := List (String × JSValue)

/-- Property lookup on an object. -/
def lookupField : JSRec → String → Option JSValue
  | [], _ => none
  | (k, v) :: rest, key => if k = key then some v else lookupField rest key

/-- JavaScript property read: a missing key reads as undefined. -/
def valueOf (r : JSRec) (key : String) : JSValue :=
  (lookupField r key).getD .vUndefined

/-- JavaScript `key in record`. -/
def hasKey (r : JSRec) (key : String) : Bool :=
  (lookupField r key).isSome

/-- JavaScript spread update `{...record, key: v}`: the key keeps its
original position when present, else is appended. -/
def setField : JSRec → String → JSValue → JSRec
  | [], key, v => [(key, v)]
  | (k, w) :: rest, key, v =>
      if k = key then (key, v) :: rest else (k, w) :: setField rest key v

/-- The check `value && typeof value === "string"`: yields the string when
the value is a non-empty string, nothing otherwise. -/
def jsNonEmptyStr : JSValue → Option String
  | .vStr s => if s = "" then none else some s
  | _ => none

/-- String projection used on fields already validated to be strings
(such as objectID after record validation). -/
def jsStringOf : JSValue → String
  | .vStr s => s
  | _ => ""

/-- The objectID of a validated record, as a string. -/
def objectIDString (r : JSRec) : String :=
  jsStringOf (valueOf r "objectID")

/-- Field-level body of validateRecordWhereResourceTypeIsNotEmpty: string
objectID, resourceType and title must be present, resourceType and title
non-empty, and objectID equal to generateUid(title). -/
def validateFieldsResourceTypeNotEmpty
    (derive : String → String) (r : JSRec) : Bool :=
  hasKey r "objectID" && hasKey r "resourceType" && hasKey r "title" &&
  (match valueOf r "objectID", valueOf r "resourceType", valueOf r "title" with
   | .vStr oid, .vStr rt, .vStr t =>
       decide (rt ≠ "") && decide (t ≠ "") && decide (derive t = oid)
   | _, _, _ => false)

/-- Embeds validateRecordWhereResourceTypeIsNotEmpty from utils/types: the
scanned item must be a non-null object satisfying the field checks. The
identifier derivation (uuid v5 from the external uuid library) is passed in
as the function derive. -/
def validateRecordWhereResourceTypeIsNotEmpty
    (derive : String → String) (record : JSValue) : Bool :=
  match record with
  | .vObj r => validateFieldsResourceTypeNotEmpty derive r
  | _ => false

/-- Embeds the per-record body of the replaceObjectIdWithSlug scan loop:
an item failing structural validation is skipped; then a record is a CHANGE
exactly when it has a non-empty string title, a non-empty string slug, its
objectID equals derive(title), and derive(slug) differs from the current
objectID. A CHANGE yields the rewritten record together with the retired
objectID. -/
def replaceChangeFields
    (derive : String → String) (r : JSRec) : Option (JSRec × String) :=
  match jsNonEmptyStr (valueOf r "title") with
  | none => none
  | some title =>
      match jsNonEmptyStr (valueOf r "slug") with
      | none => none
      | some slug =>
          match valueOf r "objectID" with
          | .vStr oid =>
              if oid ≠ derive title then none
              else
                if oid ≠ derive slug then
                  some (setField r "objectID" (.vStr (derive slug)), oid)
                else none
          | _ => none

/-- The full per-record decision: items failing structural validation are
skipped as errors; valid objects go through the title/slug/objectID checks
of replaceChangeFields. -/
def replaceObjectIdWithSlugChange
    (derive : String → String) (record : JSValue) : Option (JSRec × String) :=
  if validateRecordWhereResourceTypeIsNotEmpty derive record then
    match record with
    | .vObj r => replaceChangeFields derive r
    | _ => none
  else none

/-- All CHANGE decisions of one scanned page, in scan order. -/
def replacePageChanges
    (derive : String → String) (page : List JSValue) : List (JSRec × String) :=
  page.filterMap (replaceObjectIdWithSlugChange derive)

/-- A bulk operation issued against the index. -/
inductive StoreOp where
  | save (records : List JSRec)
  | del (objectIDs : List String)

/-- Records carried by a bulk upsert; empty for a delete. -/
def opSaves : StoreOp → List JSRec
  | .save rs => rs
  | _ => []

/-- Identifiers carried by a bulk delete; empty for an upsert. -/
def opDeletes : StoreOp → List String
  | .del ids => ids
  | _ => []

/-- Embeds the flush at the end of one page of replaceObjectIdWithSlug:
when executing and at least one change is pending, one bulk saveObjects of
the rewritten records followed by one bulk deleteObjects of the retired
identifiers; otherwise nothing. -/
def replacePageOps
    (derive : String → String) (dryRun : Bool) (page : List JSValue) : List StoreOp :=
  let changes := replacePageChanges derive page
  if !dryRun && !changes.isEmpty then
    [.save (changes.map Prod.fst), .del (changes.map Prod.snd)]
  else []

/-- The full sequence of bulk operations issued by a replaceObjectIdWithSlug
run over the scanned pages, in order. -/
def replaceRunOps
    (derive : String → String) (dryRun : Bool) (pages : List (List JSValue)) : List StoreOp :=
  (pages.map (replacePageOps derive dryRun)).flatten

/-- All old identifiers retired across a replaceObjectIdWithSlug run. -/
def replaceRunOldIds
    (derive : String → String) (pages : List (List JSValue)) : List String :=
  (pages.map (fun p => (replacePageChanges derive p).map Prod.snd)).flatten

/-- Embeds DeleteRecordsByPatternAction.recordMatchesPattern: only string
field values are tested against the compiled pattern (the regular-expression
engine is passed in as the predicate test). -/
def recordMatchesPattern (test : String → Bool) (key : String) (r : JSRec) : Bool :=
  match valueOf r key with
  | .vStr s => test s
  | _ => false

/-- Embeds the second pass of DeleteRecordsByPatternAction.processRecords:
when executing and some record matched, one bulk delete of the matching
objectIDs; in dry-run, nothing. -/
def deleteRecordsByPatternOps
    (test : String → Bool) (key : String) (dryRun : Bool)
    (records : List JSRec) : List StoreOp :=
  let matching := records.filter (recordMatchesPattern test key)
  if !dryRun && !matching.isEmpty then [.del (matching.map objectIDString)]
  else []

/-- Embeds the slicing loop of BatchProcessor.processItems: consecutive
slices of at most b elements taken from the front. -/
def chunkList (b : ℕ) : List α → List (List α)
  | [] => []
  | x :: xs =>
      if b = 0 then []
      else (x :: xs).take b :: chunkList b ((x :: xs).drop b)
termination_by l => l.length
decreasing_by
  simp only [List.length_drop, List.length_cons]
  omega

/-- The calls BatchProcessor.processItems makes to its processor callback:
each slice paired with its 1-based batch number, in order. -/
def processItemsCalls (b : ℕ) (items : List α) : List (ℕ × List α) :=
  (chunkList b items).enum.map (fun p => (p.1 + 1, p.2))

/-- Embeds BatchProcessor.processItems (without the error path, which
rethrows): the list of processor results, one per slice, in order. -/
def processItems (b : ℕ) (items : List α) (f : List α → ℕ → β) : List β :=
  (processItemsCalls b items).map (fun p => f p.2 p.1)

/-- Embeds NormalizeDateFieldAction.applyFixes: in dry-run nothing is
written; when executing, the pending fixes are processed in batches of b and
each batch is saved as one bulk upsert with the named field replaced by the
converted value. -/
def normalizeDateFieldApplyOps
    (dryRun : Bool) (fieldName : String) (b : ℕ)
    (recordsToFix : List (JSRec × ℚ)) : List StoreOp :=
  if dryRun then []
  else
    (chunkList b recordsToFix).map
      (fun batch =>
        .save (batch.map (fun it => setField it.1 fieldName (.vNum (.fin it.2)))))

/-- Embeds SanitizeDateValuesAction.isAlreadyNormalizedTimestamp (the
identical copy lives in NormalizeDateFieldAction): the original value must
be a number, positive, at most 2147483647 and strictly equal to the
converted value. -/
def isAlreadyNormalizedTimestamp
    (originalValue : JSValue) (convertedValue : ℚ) : Bool :=
  match originalValue with
  | .vNum n => n.gtQ 0 && n.leQ 2147483647 && n.eqQ convertedValue
  | _ => false

/-- Embeds FindInvalidRecordsAction.isValueInvalid: null, undefined, or a
string that is empty after trimming. -/
def isValueInvalid : JSValue → Bool
  | .vNull => true
  | .vUndefined => true
  | .vStr s => decide (s.trim = "")
  | _ => false

/-- Embeds FindInvalidRecordsAction.recordHasInvalidKeys: every checked key
is either absent or holds an invalid value. -/
def recordHasInvalidKeys (checkedKeys : List String) (r : JSRec) : Bool :=
  checkedKeys.all (fun key => !hasKey r key || isValueInvalid (valueOf r key))

/-- The string the expression `record.title || ""` passes to generateUid:
a string title is passed through, every falsy title (missing, null,
undefined, false, 0, NaN, empty string) becomes the empty string, and a
truthy non-string title yields no string at all (the uuid library is then
called outside its string contract). -/
def titleForUid (r : JSRec) : Option String :=
  match valueOf r "title" with
  | .vStr s => some s
  | .vNull => some ""
  | .vUndefined => some ""
  | .vBool b => if b then none else some ""
  | .vNum .nan => some ""
  | .vNum (.fin q) => if q = 0 then some "" else none
  | .vNum _ => none
  | .vObj _ => none
  | .vArr _ => none

/-- Embeds the selection test of FindInvalidRecordsAction.processRecords:
recordHasInvalidKeys(record) && generateUid(record.title || "") ===
record.objectID, with short-circuit evaluation. The result is none when the
title is a truthy non-string (no string reaches the derivation). -/
def findInvalidSelect
    (derive : String → String) (checkedKeys : List String) (r : JSRec) : Option Bool :=
  if recordHasInvalidKeys checkedKeys r then
    match titleForUid r with
    | some t =>
        match valueOf r "objectID" with
        | .vStr oid => some (decide (derive t = oid))
        | _ => some false
    | none => none
  else some false

/-- Embeds the deletion pass of FindInvalidRecordsAction.processRecords:
the identifiers deleted by a run, or none when selection failed on some
record (nothing is deleted in that case, the run aborts before the second
pass). In dry-run, or when nothing was selected, no identifier is deleted. -/
def findInvalidRunDeletedIds
    (derive : String → String) (checkedKeys : List String)
    (records : List JSRec) (dryRun : Bool) : Option (List String) :=
  (records.mapM (fun r => (findInvalidSelect derive checkedKeys r).map ((r, ·)))).map
    (fun pairs =>
      let invalid := (pairs.filter (fun p => p.2)).map Prod.fst
      if !dryRun && !invalid.isEmpty then invalid.map objectIDString else [])

/-- Embeds ConfigurationManager.getBatchSize fed with an already-parsed
environment value: a positive override is capped at 10000; otherwise a
positive parsed ALGOLIA_BATCH_SIZE is capped at 10000; otherwise 1000. -/
def getBatchSizeEnv (envParsed : Option ℤ) : ℚ :=
  match envParsed with
  | some p => if 0 < p then min (p : ℚ) 10000 else 1000
  | none => 1000

/-- Embeds ConfigurationManager.getBatchSize. -/
def getBatchSize (override : Option ℚ) (envParsed : Option ℤ) : ℚ :=
  match override with
  | some o => if 0 < o then min o 10000 else getBatchSizeEnv envParsed
  | none => getBatchSizeEnv envParsed

/-- JavaScript `x || d` on an optional finite number: an absent or zero
value falls back to the default. -/
def jsOrDefault (v : Option ℚ) (d : ℚ) : ℚ :=
  match v with
  | some x => if x = 0 then d else x
  | none => d

/-- The page size BaseAlgoliaAction.browseRecords requests:
options.batchSize || 1000, with no cap. -/
def browseRecordsBatchSize (batchSize : Option ℚ) : ℚ :=
  jsOrDefault batchSize 1000

/-- The slice size the BatchProcessor constructor stores:
options.batchSize || 1000, with no cap. -/
def batchProcessorBatchSize (batchSize : Option ℚ) : ℚ :=
  jsOrDefault batchSize 1000

/-- One duplicate-slug group as categorized by
FindDuplicateSlugAction.identifyDuplicates. -/
structure DupGroup where
  slug : String
  titleGeneratedRecord : Option JSRec
  slugGeneratedRecord : Option JSRec

/-- The replacement pairs FindDuplicateSlugAction.processDuplicateReplacements
accumulates: for each group holding both a title-generated and a
slug-generated record, the title-generated content rewritten under the
slug-generated objectID, paired with the title-generated objectID to retire. -/
def dupReplacements (groups : List DupGroup) : List (JSRec × String) :=
  groups.filterMap (fun g =>
    match g.titleGeneratedRecord, g.slugGeneratedRecord with
    | some tg, some sg =>
        some (setField tg "objectID" (valueOf sg "objectID"), objectIDString tg)
    | _, _ => none)

/-- The bulk operations FindDuplicateSlugAction.processDuplicateReplacements
issues: one upsert of all rewritten records (when any), then one delete of
all retired identifiers (when any). -/
def processDuplicateReplacementsOps (groups : List DupGroup) : List StoreOp :=
  let rs := (dupReplacements groups).map Prod.fst
  let ds := (dupReplacements groups).map Prod.snd
  (if !rs.isEmpty then [StoreOp.save rs] else []) ++
    (if !ds.isEmpty then [StoreOp.del ds] else [])

/-- The ordering guarantee under scrutiny: wherever a bulk delete in the
trace contains the identifier o, some strictly earlier bulk upsert contains
the record r. -/
def SafeOrder (tr : List StoreOp) (r : JSRec) (o : String) : Prop :=
  ∀ pre op suf, tr = pre ++ op :: suf → o ∈ opDeletes op →
    ∃ op2, op2 ∈ pre ∧ r ∈ opSaves op2

/-- Blankness of a string: every character is whitespace; this is exactly
when trim() yields the empty string. -/
def strBlank (s : String) : Bool :=
  s.toList.all Char.isWhitespace

/-- Eligibility for replace-objectid-with-slug as the specification words
it (for refinement comparison only, not taken from the code): a non-blank
string title, a non-blank string slug, and objectID equal to derive(title),
with no condition on any other field. Blankness is strBlank (every
character whitespace, which is exactly when trim() gives the empty
string). -/
def specReplaceEligible (derive : String → String) (record : JSValue) : Bool :=
  match record with
  | .vObj r =>
      (match valueOf r "title" with
       | .vStr t => !strBlank t
       | _ => false) &&
      (match valueOf r "slug" with
       | .vStr s => !strBlank s
       | _ => false) &&
      (match valueOf r "objectID", valueOf r "title" with
       | .vStr oid, .vStr t => decide (derive t = oid)
       | _, _ => false)
  | _ => false

/-- C2 counterexample: the claim fails on the microsecond side of the
round-trip. For t_seconds = 946684800 (the lower end of the claimed
interval), t_seconds * 1000000 = 946684800000000 does not exceed the
microsecond threshold 999999999999999, so normalizeTimestamp takes the
millisecond branch and returns 946684800000, not 946684800. -/
theorem c2_counterexample :
    normalizeTimestamp (JSNum.fin 946684800000000) = JSNum.fin 946684800000
    ∧ (946684800000 : ℚ) ≠ 946684800
    ∧ (946684800000000 : ℚ) = 946684800 * 1000000 := by
  refine ⟨?_, by norm_num, by norm_num⟩
  have hA : ¬ ((999999999999999 : ℚ) < 946684800000000) := by norm_num
  have hB : ((9999999999 : ℚ) < 946684800000000) := by norm_num
  simp only [normalizeTimestamp, JSNum.gtQ, decide_eq_true_eq, hA, hB, if_false, if_true,
    convertMsToSeconds, JSNum.floorDiv, JSNum.fin.injEq]
  norm_num

/-- C2 amended: for every t_seconds in [946684800, 2147483647] the
millisecond round-trip holds, and the microsecond round-trip holds exactly
on the sub-interval [1000000000, 2147483647] (below 10^9 seconds the
microsecond product stays at or below 999999999999999 and is misread as
milliseconds). -/
theorem c2_theorem (t : ℤ) (h1 : 946684800 ≤ t) (h2 : t ≤ 2147483647) :
    normalizeTimestamp (JSNum.fin ((t : ℚ) * 1000)) = JSNum.fin ((t : ℚ))
    ∧ (1000000000 ≤ t →
        normalizeTimestamp (JSNum.fin ((t : ℚ) * 1000000)) = JSNum.fin ((t : ℚ))) := by
  have ht1 : (946684800 : ℚ) ≤ (t : ℚ) := by exact_mod_cast h1
  have ht2 : ((t : ℚ)) ≤ 2147483647 := by exact_mod_cast h2
  constructor
  · have hA : ¬ ((999999999999999 : ℚ) < (t : ℚ) * 1000) := by nlinarith
    have hB : ((9999999999 : ℚ) < (t : ℚ) * 1000) := by nlinarith
    simp only [normalizeTimestamp, JSNum.gtQ, decide_eq_true_eq, hA, hB, if_false, if_true,
      convertMsToSeconds, JSNum.floorDiv, JSNum.fin.injEq]
    rw [show ((t : ℚ) * 1000) / 1000 = ((t : ℤ) : ℚ) by ring]
    rw [Int.floor_intCast]
  · intro h3
    have ht3 : (1000000000 : ℚ) ≤ (t : ℚ) := by exact_mod_cast h3
    have hA : ((999999999999999 : ℚ) < (t : ℚ) * 1000000) := by nlinarith
    simp only [normalizeTimestamp, JSNum.gtQ, decide_eq_true_eq, hA, if_true,
      convertMicrosecondsToSeconds, JSNum.floorDiv, JSNum.fin.injEq]
    rw [show ((t : ℚ) * 1000000) / 1000000 = ((t : ℤ) : ℚ) by ring]
    rw [Int.floor_intCast]

/-- C2 witness: the amended theorem applied at t_seconds = 1600000000. -/
theorem c2_theorem_witness :
    normalizeTimestamp (JSNum.fin (((1600000000 : ℤ) : ℚ) * 1000)) = JSNum.fin (((1600000000 : ℤ) : ℚ))
    ∧ (1000000000 ≤ (1600000000 : ℤ) →
        normalizeTimestamp (JSNum.fin (((1600000000 : ℤ) : ℚ) * 1000000)) = JSNum.fin (((1600000000 : ℤ) : ℚ))) :=
  c2_theorem 1600000000 (by norm_num) (by norm_num)

/-- C3 counterexample: the claim states the candidate is returned only when
it lies in the closed interval [1, 2147483647], but the code only requires
the candidate to be positive: for the numeric input 1/2 (a finite positive
JavaScript number), the conversion returns 1/2, which is below 1. -/
theorem c3_counterexample :
    attemptDateConversionNum (JSNum.fin (1/2)) = some (1/2)
    ∧ ¬ ((1 : ℚ) ≤ 1/2) := by
  constructor
  · have h0 : ¬ ((1 : ℚ)/2 ≤ 0) := by norm_num
    have hA : ¬ ((999999999999999 : ℚ) < 1/2) := by norm_num
    have hB : ¬ ((9999999999 : ℚ) < 1/2) := by norm_num
    simp [attemptDateConversionNum, JSNum.isFinite, JSNum.leQ, normalizeTimestamp,
      JSNum.gtQ, h0, hA, hB]
    norm_num
  · norm_num

/-- C3 amended: for every numeric input, a non-finite or non-positive value
yields null; otherwise the candidate is floor(v/1000000) above
999999999999999, floor(v/1000) above 9999999999, and v itself below that,
and the candidate is returned exactly when 0 < candidate <= 2147483647
(which coincides with the claimed interval [1, 2147483647] for integer
candidates, but admits fractional candidates below 1). -/
theorem c3_theorem (v : JSNum) :
    attemptDateConversionNum v =
      match v with
      | .fin q =>
          if q ≤ 0 then none
          else
            let c : ℚ :=
              if 999999999999999 < q then ((⌊q / 1000000⌋ : ℤ) : ℚ)
              else if 9999999999 < q then ((⌊q / 1000⌋ : ℤ) : ℚ)
              else q
            if 0 < c ∧ c ≤ 2147483647 then some c else none
      | _ => none := by
  cases v with
  | nan => rfl
  | posInf => rfl
  | negInf => rfl
  | fin q =>
      by_cases h0 : q ≤ 0
      · simp [attemptDateConversionNum, JSNum.isFinite, JSNum.leQ, h0]
      · by_cases hA : (999999999999999 : ℚ) < q
        · simp [attemptDateConversionNum, JSNum.isFinite, JSNum.leQ, normalizeTimestamp,
            JSNum.gtQ, convertMicrosecondsToSeconds, JSNum.floorDiv, h0, hA]
        · by_cases hB : (9999999999 : ℚ) < q
          · simp [attemptDateConversionNum, JSNum.isFinite, JSNum.leQ, normalizeTimestamp,
              JSNum.gtQ, convertMsToSeconds, JSNum.floorDiv, h0, hA, hB]
          · simp [attemptDateConversionNum, JSNum.isFinite, JSNum.leQ, normalizeTimestamp,
              JSNum.gtQ, h0, hA, hB]

/-- C8: isAlreadyNormalizedTimestamp is true exactly when the original
value is a finite number q with 0 < q <= 2147483647 that equals the
converted value, and in particular is false on every string input. -/
theorem c8_theorem (v : JSValue) (c : ℚ) :
    (isAlreadyNormalizedTimestamp v c = true ↔
      ∃ q : ℚ, v = .vNum (.fin q) ∧ 0 < q ∧ q ≤ 2147483647 ∧ q = c)
    ∧ (∀ s : String, isAlreadyNormalizedTimestamp (.vStr s) c = false) := by
  constructor
  · cases v with
    | vNum n =>
        cases n with
        | nan => simp [isAlreadyNormalizedTimestamp, JSNum.gtQ]
        | posInf => simp [isAlreadyNormalizedTimestamp, JSNum.gtQ, JSNum.leQ]
        | negInf => simp [isAlreadyNormalizedTimestamp, JSNum.gtQ]
        | fin q =>
            simp only [isAlreadyNormalizedTimestamp, JSNum.gtQ, JSNum.leQ, JSNum.eqQ,
              Bool.and_eq_true, decide_eq_true_eq, JSValue.vNum.injEq, JSNum.fin.injEq]
            constructor
            · rintro ⟨⟨hq, hle⟩, hc⟩
              exact ⟨q, rfl, hq, hle, hc⟩
            · rintro ⟨q2, hq2, hpos, hle, hc⟩
              subst hq2
              exact ⟨⟨hpos, hle⟩, hc⟩
    | vNull => simp [isAlreadyNormalizedTimestamp]
    | vUndefined => simp [isAlreadyNormalizedTimestamp]
    | vBool b => simp [isAlreadyNormalizedTimestamp]
    | vStr s => simp [isAlreadyNormalizedTimestamp]
    | vObj fields => simp [isAlreadyNormalizedTimestamp]
    | vArr elems => simp [isAlreadyNormalizedTimestamp]
  · intro s
    rfl

/-- C1: with dry-run active, a replace-objectid-with-slug run, a
delete-records-by-pattern run and the normalize-date-field fix phase each
issue no bulk operation at all, whatever was scanned or classified. -/
theorem c1_theorem (derive : String → String) (pages : List (List JSValue))
    (test : String → Bool) (key : String) (records : List JSRec)
    (fieldName : String) (b : ℕ) (fixes : List (JSRec × ℚ)) :
    replaceRunOps derive true pages = []
    ∧ deleteRecordsByPatternOps test key true records = []
    ∧ normalizeDateFieldApplyOps true fieldName b fixes = [] := by
  refine ⟨?_, ?_, ?_⟩
  · simp [replaceRunOps, replacePageOps]
  · simp [deleteRecordsByPatternOps]
  · simp [normalizeDateFieldApplyOps]

/-- C6 counterexample: a supplied override of 50000 reaches the scan page
size unchanged, exceeding the claimed 10000 cap (the cap lives only in
ConfigurationManager.getBatchSize, which the scan and write paths never
call). -/
theorem c6_counterexample :
    browseRecordsBatchSize (some 50000) = 50000
    ∧ batchProcessorBatchSize (some 50000) = 50000
    ∧ ¬ ((50000 : ℚ) ≤ 10000) := by
  refine ⟨?_, ?_, by norm_num⟩ <;>
    simp [browseRecordsBatchSize, batchProcessorBatchSize, jsOrDefault]

/-- C6 amended: the batch size defaults to 1000 on every path
(browseRecords, BatchProcessor, getBatchSize); getBatchSize caps a positive
override at 10000, but browseRecords and BatchProcessor use any non-zero
supplied override as-is, without a cap. -/
theorem c6_theorem :
    browseRecordsBatchSize none = 1000
    ∧ batchProcessorBatchSize none = 1000
    ∧ getBatchSize none none = 1000
    ∧ (∀ (n : ℚ) (e : Option ℤ), 0 < n → getBatchSize (some n) e ≤ 10000)
    ∧ (∀ n : ℚ, n ≠ 0 →
        browseRecordsBatchSize (some n) = n ∧ batchProcessorBatchSize (some n) = n) := by
  refine ⟨rfl, rfl, rfl, ?_, ?_⟩
  · intro n e hn
    simp [getBatchSize, hn]
  · intro n hn
    constructor <;> simp [browseRecordsBatchSize, batchProcessorBatchSize, jsOrDefault, hn]

/-- C6 witness: the amended theorem applied at override 50000. -/
theorem c6_theorem_witness :
    getBatchSize (some 50000) none ≤ 10000
    ∧ browseRecordsBatchSize (some 50000) = 50000
    ∧ batchProcessorBatchSize (some 50000) = 50000 :=
  ⟨c6_theorem.2.2.2.1 50000 none (by norm_num),
   (c6_theorem.2.2.2.2 50000 (by norm_num)).1,
   (c6_theorem.2.2.2.2 50000 (by norm_num)).2⟩

/-- Unfolding of chunkList on a non-empty list with a positive slice size. -/
theorem chunkList_ne_nil_eq (b : ℕ) (l : List α) (hb : b ≠ 0) (hl : l ≠ []) :
    chunkList b l = l.take b :: chunkList b (l.drop b) := by
  cases l with
  | nil => exact absurd rfl hl
  | cons x xs => rw [chunkList]; simp [hb]

/-- The slices of chunkList concatenate back to the input list. -/
theorem chunkList_flatten (b : ℕ) (hb : b ≠ 0) :
    ∀ l : List α, (chunkList b l).flatten = l
  | [] => by simp [chunkList]
  | x :: xs => by
      rw [chunkList_ne_nil_eq b _ hb (by simp)]
      simp only [List.flatten_cons]
      rw [chunkList_flatten b hb ((x :: xs).drop b)]
      exact List.take_append_drop b (x :: xs)
termination_by l => l.length
decreasing_by
  simp only [List.length_drop, List.length_cons]
  omega

/-- Every slice of chunkList except possibly the last has exactly b
elements. -/
theorem chunkList_dropLast_length (b : ℕ) (hb : b ≠ 0) :
    ∀ l : List α, ∀ c ∈ (chunkList b l).dropLast, c.length = b
  | [] => by simp [chunkList]
  | x :: xs => by
      intro c hc
      rw [chunkList_ne_nil_eq b _ hb (by simp)] at hc
      rcases hrest : chunkList b ((x :: xs).drop b) with _ | ⟨y, ys⟩
      · rw [hrest] at hc
        simp at hc
      · rw [hrest] at hc
        rw [List.dropLast_cons₂] at hc
        rcases List.mem_cons.mp hc with h | h
        · subst h
          have hd : (x :: xs).drop b ≠ [] := by
            intro hnil
            rw [hnil] at hrest
            simp [chunkList] at hrest
          have hlen : b < (x :: xs).length := by
            by_contra hge
            push_neg at hge
            exact hd (List.drop_eq_nil_of_le hge)
          simp only [List.length_take]
          omega
        · have h2 : c ∈ (chunkList b ((x :: xs).drop b)).dropLast := by
            rw [hrest]
            exact h
          exact chunkList_dropLast_length b hb ((x :: xs).drop b) c h2
termination_by l => l.length
decreasing_by
  simp only [List.length_drop, List.length_cons]
  omega

/-- Every slice of chunkList is non-empty and has at most b elements. -/
theorem chunkList_mem_length (b : ℕ) (hb : b ≠ 0) :
    ∀ l : List α, ∀ c ∈ chunkList b l, c ≠ [] ∧ c.length ≤ b
  | [] => by simp [chunkList]
  | x :: xs => by
      intro c hc
      rw [chunkList_ne_nil_eq b _ hb (by simp)] at hc
      rcases List.mem_cons.mp hc with h | h
      · subst h
        refine ⟨?_, by simp [List.length_take]⟩
        cases b with
        | zero => exact absurd rfl hb
        | succ n => simp [List.take_cons]
      · exact chunkList_mem_length b hb ((x :: xs).drop b) c h
termination_by l => l.length
decreasing_by
  simp only [List.length_drop, List.length_cons]
  omega

/-- The 1-based positions produced by enumerating a list. -/
theorem enum_map_fst_add_one (l : List γ) :
    l.enum.map (fun p => p.1 + 1) = List.range' 1 l.length := by
  have h1 : l.enum.map (fun p => p.1 + 1) = (l.enum.map Prod.fst).map (fun i => i + 1) := by
    rw [List.map_map]
    rfl
  have h2 : (fun i : ℕ => i + 1) = (fun i : ℕ => 1 + i) := by
    funext i
    omega
  rw [h1, List.enum_map_fst, List.range'_eq_map_range, h2]

/-- C9: BatchProcessor.processItems partitions its input into consecutive
slices in order (all of size b except possibly the last, none empty), the
concatenation of the slices is the input, the callback receives batch
numbers 1, 2, ... consecutively with the slices in order, and the result
list carries one callback result per slice in that order. -/
theorem c9_theorem (b : ℕ) (hb : 1 ≤ b) (items : List α) (f : List α → ℕ → β) :
    (chunkList b items).flatten = items
    ∧ (∀ c ∈ (chunkList b items).dropLast, c.length = b)
    ∧ (∀ c ∈ chunkList b items, c ≠ [] ∧ c.length ≤ b)
    ∧ (processItemsCalls b items).map Prod.fst = List.range' 1 (chunkList b items).length
    ∧ (processItemsCalls b items).map Prod.snd = chunkList b items
    ∧ processItems b items f = (chunkList b items).enum.map (fun p => f p.2 (p.1 + 1)) := by
  have hb0 : b ≠ 0 := by omega
  refine ⟨chunkList_flatten b hb0 items,
          chunkList_dropLast_length b hb0 items,
          chunkList_mem_length b hb0 items, ?_, ?_, ?_⟩
  · have : (processItemsCalls b items).map Prod.fst =
        (chunkList b items).enum.map (fun p => p.1 + 1) := by
      simp [processItemsCalls, List.map_map]
    rw [this, enum_map_fst_add_one]
  · unfold processItemsCalls
    rw [List.map_map]
    show (chunkList b items).enum.map Prod.snd = chunkList b items
    exact List.enum_map_snd _
  · unfold processItems processItemsCalls
    rw [List.map_map]
    rfl

/-- C9 witness: the theorem applied to slice size 2 over a three-element
list. -/
theorem c9_theorem_witness :
    (chunkList 2 [10, 11, 12]).flatten = [10, 11, 12]
    ∧ (∀ c ∈ (chunkList 2 [10, 11, 12]).dropLast, c.length = 2)
    ∧ (∀ c ∈ chunkList 2 [10, 11, 12], c ≠ [] ∧ c.length ≤ 2)
    ∧ (processItemsCalls 2 [10, 11, 12]).map Prod.fst =
        List.range' 1 (chunkList 2 [10, 11, 12]).length
    ∧ (processItemsCalls 2 [10, 11, 12]).map Prod.snd = chunkList 2 [10, 11, 12]
    ∧ processItems 2 [10, 11, 12] (fun batch n => n * batch.length) =
        (chunkList 2 [10, 11, 12]).enum.map (fun p => (p.1 + 1) * p.2.length) :=
  c9_theorem 2 (by norm_num) [10, 11, 12] (fun batch n => n * batch.length)

/-- Characterization of the non-empty-string check. -/
theorem jsNonEmptyStr_eq_some {v : JSValue} {s : String} :
    jsNonEmptyStr v = some s ↔ v = .vStr s ∧ s ≠ "" := by
  cases v with
  | vStr s2 =>
      simp only [jsNonEmptyStr, JSValue.vStr.injEq]
      by_cases h : s2 = ""
      · subst h
        rw [if_pos rfl]
        constructor
        · intro hx
          cases hx
        · rintro ⟨heq, hne⟩
          exact absurd heq.symm hne
      · rw [if_neg h]
        constructor
        · intro hx
          injection hx with hx2
          exact ⟨hx2, hx2 ▸ h⟩
        · rintro ⟨heq, _⟩
          rw [heq]
  | vNull => simp [jsNonEmptyStr]
  | vUndefined => simp [jsNonEmptyStr]
  | vBool b => simp [jsNonEmptyStr]
  | vNum n => simp [jsNonEmptyStr]
  | vObj fields => simp [jsNonEmptyStr]
  | vArr elems => simp [jsNonEmptyStr]

/-- A field read as a string is present. -/
theorem hasKey_of_valueOf_vStr {r : JSRec} {k x : String}
    (h : valueOf r k = .vStr x) : hasKey r k = true := by
  unfold valueOf at h
  unfold hasKey
  cases hl : lookupField r k with
  | none => rw [hl] at h; simp at h
  | some v => simp [hl]

/-- C5 counterexample: the record with objectID "a", title "a", slug "b"
and no resourceType satisfies all three conditions of the claim under the
derivation derive(s) = s, yet the code does not classify it as a change
(the structural validator additionally demands a non-empty resourceType). -/
theorem c5_counterexample :
    specReplaceEligible (fun s => s)
        (.vObj [("objectID", .vStr "a"), ("title", .vStr "a"), ("slug", .vStr "b")]) = true
    ∧ replaceObjectIdWithSlugChange (fun s => s)
        (.vObj [("objectID", .vStr "a"), ("title", .vStr "a"), ("slug", .vStr "b")]) = none := by
  exact ⟨by decide, rfl⟩

/-- C5 amended: a scanned item is classified as a change exactly when it is
an object with a non-empty string title, a non-empty string slug, a
non-empty string resourceType, a string objectID equal to derive(title),
and derive(slug) different from the current objectID; in that case the new
record is the old one with objectID replaced by derive(slug), and the old
objectID is retired. -/
theorem c5_theorem (derive : String → String) (record : JSValue) :
    ((replaceObjectIdWithSlugChange derive record).isSome = true ↔
      ∃ r t s oid, record = .vObj r
        ∧ valueOf r "title" = .vStr t ∧ t ≠ ""
        ∧ valueOf r "slug" = .vStr s ∧ s ≠ ""
        ∧ (∃ rt, valueOf r "resourceType" = .vStr rt ∧ rt ≠ "")
        ∧ valueOf r "objectID" = .vStr oid
        ∧ derive t = oid ∧ derive s ≠ oid)
    ∧ (∀ r t s oid, record = .vObj r →
        valueOf r "title" = .vStr t → t ≠ "" →
        valueOf r "slug" = .vStr s → s ≠ "" →
        (∃ rt, valueOf r "resourceType" = .vStr rt ∧ rt ≠ "") →
        valueOf r "objectID" = .vStr oid →
        derive t = oid → derive s ≠ oid →
        replaceObjectIdWithSlugChange derive record =
          some (setField r "objectID" (.vStr (derive s)), oid)) := by
  have hbuild : ∀ (r : JSRec) (t s oid : String),
      valueOf r "title" = .vStr t → t ≠ "" →
      valueOf r "slug" = .vStr s → s ≠ "" →
      (∃ rt, valueOf r "resourceType" = .vStr rt ∧ rt ≠ "") →
      valueOf r "objectID" = .vStr oid →
      derive t = oid → derive s ≠ oid →
      replaceObjectIdWithSlugChange derive (.vObj r) =
        some (setField r "objectID" (.vStr (derive s)), oid) := by
    rintro r t s oid htv htne hsv hsne ⟨rt, hrtv, hrtne⟩ ho hdt hds
    have hval : validateFieldsResourceTypeNotEmpty derive r = true := by
      unfold validateFieldsResourceTypeNotEmpty
      rw [ho, hrtv, htv]
      simp [hasKey_of_valueOf_vStr ho, hasKey_of_valueOf_vStr hrtv,
        hasKey_of_valueOf_vStr htv, hrtne, htne, hdt]
    have hstep : replaceObjectIdWithSlugChange derive (.vObj r) =
        replaceChangeFields derive r := by
      unfold replaceObjectIdWithSlugChange
      rw [show validateRecordWhereResourceTypeIsNotEmpty derive (.vObj r) = true from hval]
      simp
    rw [hstep]
    unfold replaceChangeFields
    rw [jsNonEmptyStr_eq_some.mpr ⟨htv, htne⟩]
    simp only []
    rw [jsNonEmptyStr_eq_some.mpr ⟨hsv, hsne⟩]
    simp only []
    rw [ho]
    simp only []
    rw [if_neg (not_not_intro hdt.symm), if_pos (fun heq => hds heq.symm)]
  constructor
  · constructor
    · intro h
      unfold replaceObjectIdWithSlugChange at h
      split at h
      case isTrue hval =>
        cases record with
        | vObj r =>
            have hval2 : validateFieldsResourceTypeNotEmpty derive r = true := hval
            have h2 : (replaceChangeFields derive r).isSome = true := h
            unfold replaceChangeFields at h2
            split at h2
            case h_1 => simp at h2
            case h_2 title ht =>
              split at h2
              case h_1 => simp at h2
              case h_2 slug hs =>
                split at h2
                case h_2 => simp at h2
                case h_1 oid ho =>
                  split at h2
                  case isTrue => simp at h2
                  case isFalse h1 =>
                    split at h2
                    case isFalse => simp at h2
                    case isTrue hne =>
                      push_neg at h1
                      obtain ⟨htv, htne⟩ := jsNonEmptyStr_eq_some.mp ht
                      obtain ⟨hsv, hsne⟩ := jsNonEmptyStr_eq_some.mp hs
                      have hrt : ∃ rt, valueOf r "resourceType" = .vStr rt ∧ rt ≠ "" := by
                        unfold validateFieldsResourceTypeNotEmpty at hval2
                        rw [ho, htv] at hval2
                        cases hr : valueOf r "resourceType" with
                        | vStr rt =>
                            rw [hr] at hval2
                            simp at hval2
                            refine ⟨rt, rfl, ?_⟩
                            tauto
                        | vNull => rw [hr] at hval2; simp at hval2
                        | vUndefined => rw [hr] at hval2; simp at hval2
                        | vBool b => rw [hr] at hval2; simp at hval2
                        | vNum n => rw [hr] at hval2; simp at hval2
                        | vObj f2 => rw [hr] at hval2; simp at hval2
                        | vArr e2 => rw [hr] at hval2; simp at hval2
                      exact ⟨r, title, slug, oid, rfl, htv, htne, hsv, hsne, hrt, ho,
                        h1.symm, fun hds => hne hds.symm⟩
        | vNull => simp at h
        | vUndefined => simp at h
        | vBool b => simp at h
        | vNum n => simp at h
        | vStr s => simp at h
        | vArr e2 => simp at h
      case isFalse hval => simp at h
    · rintro ⟨r, t, s, oid, hrec, htv, htne, hsv, hsne, hrt, ho, hdt, hds⟩
      subst hrec
      rw [hbuild r t s oid htv htne hsv hsne hrt ho hdt hds]
      rfl
  · rintro r t s oid hrec htv htne hsv hsne hrt ho hdt hds
    subst hrec
    exact hbuild r t s oid htv htne hsv hsne hrt ho hdt hds

/-- C5 witness: the amended theorem applied to a fully eligible record with
derive(s) = s. -/
theorem c5_theorem_witness :
    replaceObjectIdWithSlugChange (fun s => s)
        (.vObj [("objectID", .vStr "a"), ("title", .vStr "a"),
                ("slug", .vStr "b"), ("resourceType", .vStr "x")]) =
      some (setField
        [("objectID", .vStr "a"), ("title", .vStr "a"),
         ("slug", .vStr "b"), ("resourceType", .vStr "x")] "objectID" (.vStr "b"), "a") :=
  (c5_theorem (fun s => s) _).2
    [("objectID", .vStr "a"), ("title", .vStr "a"),
     ("slug", .vStr "b"), ("resourceType", .vStr "x")]
    "a" "b" "a" rfl rfl (by decide) rfl (by decide) ⟨"x", rfl, by decide⟩ rfl rfl (by decide)

/-- Every pair produced by the selection pass comes from a scanned record
together with its own selection verdict. -/
theorem mapM_select_mem (derive : String → String) (keys : List String) :
    ∀ (records : List JSRec) (pairs : List (JSRec × Bool)),
      records.mapM (fun r => (findInvalidSelect derive keys r).map ((r, ·))) = some pairs →
      ∀ p ∈ pairs, p.1 ∈ records ∧ findInvalidSelect derive keys p.1 = some p.2
  | [], pairs => by
      intro h p hp
      have h2 : some ([] : List (JSRec × Bool)) = some pairs := h
      injection h2 with h2
      subst h2
      cases hp
  | r :: rs, pairs => by
      intro h p hp
      rw [List.mapM_cons] at h
      cases hsel : (findInvalidSelect derive keys r).map ((r, ·)) with
      | none => rw [hsel] at h; simp at h
      | some x =>
          rw [hsel] at h
          cases hrest : rs.mapM (fun r => (findInvalidSelect derive keys r).map ((r, ·))) with
          | none => rw [hrest] at h; simp at h
          | some xs =>
              rw [hrest] at h
              simp at h
              subst h
              rcases List.mem_cons.mp hp with hpx | hpxs
              · subst hpx
                obtain ⟨b, hb, hx⟩ := Option.map_eq_some'.mp hsel
                rw [← hx]
                exact ⟨List.mem_cons_self r rs, hb⟩
              · obtain ⟨hmem, hsel2⟩ :=
                  mapM_select_mem derive keys rs xs hrest p hpxs
                exact ⟨List.mem_cons_of_mem r hmem, hsel2⟩

/-- C7: for every scanned record carrying a string title, the
find-invalid-records selection is exactly the conjunction of "all checked
keys are missing or invalid" and "objectID equals derive(title)"; and in an
executing run, every deleted identifier belongs to a record the selection
accepted. -/
theorem c7_theorem (derive : String → String) (keys : List String) (r : JSRec)
    (t oid : String)
    (ht : valueOf r "title" = .vStr t) (ho : valueOf r "objectID" = .vStr oid) :
    findInvalidSelect derive keys r =
      some (recordHasInvalidKeys keys r && decide (derive t = oid))
    ∧ (∀ (records : List JSRec) (ids : List String) (x : String),
        findInvalidRunDeletedIds derive keys records false = some ids → x ∈ ids →
        ∃ rec, rec ∈ records ∧ findInvalidSelect derive keys rec = some true
          ∧ x = objectIDString rec) := by
  constructor
  · unfold findInvalidSelect
    by_cases hk : recordHasInvalidKeys keys r = true
    · rw [if_pos hk, hk]
      have htu : titleForUid r = some t := by
        unfold titleForUid
        rw [ht]
      rw [htu]
      simp only []
      rw [ho]
      simp
    · rw [if_neg hk]
      rw [Bool.not_eq_true] at hk
      rw [hk]
      simp
  · intro records ids x hrun hx
    unfold findInvalidRunDeletedIds at hrun
    obtain ⟨pairs, hpairs, hids⟩ := Option.map_eq_some'.mp hrun
    have hx2 : x ∈ ((pairs.filter (fun p => p.2)).map Prod.fst).map objectIDString := by
      rw [← hids] at hx
      by_cases hinv : ((pairs.filter (fun p => p.2)).map Prod.fst).isEmpty = true
      · simp [hinv] at hx
      · simpa [hinv] using hx
    obtain ⟨rec, hrecmem, hxeq⟩ := List.mem_map.mp hx2
    obtain ⟨p, hpmem, hpeq⟩ := List.mem_map.mp hrecmem
    have hpfilter := List.mem_filter.mp hpmem
    obtain ⟨hmem, hsel⟩ := mapM_select_mem derive keys records pairs hpairs p hpfilter.1
    refine ⟨rec, ?_, ?_, hxeq.symm⟩
    · rw [← hpeq]
      exact hmem
    · rw [← hpeq]
      rw [hsel]
      have hp2 : p.2 = true := by simpa using hpfilter.2
      rw [hp2]

/-- C7 witness: the theorem applied to a record with title "T", objectID
"T", checked key "foo" absent, under derive(s) = s. -/
theorem c7_theorem_witness :
    findInvalidSelect (fun s => s) ["foo"] [("objectID", .vStr "T"), ("title", .vStr "T")] =
      some (recordHasInvalidKeys ["foo"] [("objectID", .vStr "T"), ("title", .vStr "T")]
        && decide ((fun s : String => s) "T" = "T")) :=
  (c7_theorem (fun s => s) ["foo"] [("objectID", .vStr "T"), ("title", .vStr "T")]
    "T" "T" rfl rfl).1

/-- C10: a record whose title is null, undefined or missing is compared
against derive of the empty string: when all checked keys are invalid, it
is selected exactly when its objectID equals derive(""). -/
theorem c10_theorem (derive : String → String) (keys : List String) (r : JSRec)
    (oid : String)
    (ht : valueOf r "title" = .vNull ∨ valueOf r "title" = .vUndefined)
    (ho : valueOf r "objectID" = .vStr oid)
    (hk : recordHasInvalidKeys keys r = true) :
    findInvalidSelect derive keys r = some (decide (derive "" = oid)) := by
  unfold findInvalidSelect
  rw [if_pos hk]
  have htu : titleForUid r = some "" := by
    unfold titleForUid
    rcases ht with h | h
    · rw [h]
    · rw [h]
  rw [htu]
  simp only []
  rw [ho]

/-- C10 witness: the theorem applied to a record with a null title, absent
checked key "foo" and objectID equal to derive("") for derive constantly
"X". -/
theorem c10_theorem_witness :
    findInvalidSelect (fun _ => "X") ["foo"] [("objectID", .vStr "X"), ("title", .vNull)] =
      some (decide ((fun _ : String => "X") "" = "X")) :=
  c10_theorem (fun _ => "X") ["foo"] [("objectID", .vStr "X"), ("title", .vNull)]
    "X" (Or.inl rfl) rfl (by decide)

/-- A trace that begins with an upsert containing r satisfies the ordering
guarantee for r against any identifier: every delete strictly follows that
upsert. -/
theorem safeOrder_cons_save {us : List JSRec} {tr : List StoreOp} {r : JSRec} {o : String}
    (hr : r ∈ us) : SafeOrder (.save us :: tr) r o := by
  intro pre op suf heq ho
  cases pre with
  | nil =>
      injection heq with h1 h2
      subst h1
      simp [opDeletes] at ho
  | cons a pre2 =>
      injection heq with h1 h2
      subst h1
      exact ⟨.save us, List.mem_cons_self _ _, hr⟩

/-- Ordering for the replace-objectid-with-slug run: under distinct retired
identifiers, every change's rewritten record is upserted strictly before
any delete carrying its old identifier. -/
theorem replaceRun_safeOrder (derive : String → String) :
    ∀ (pages : List (List JSValue)),
      (replaceRunOldIds derive pages).Nodup →
      ∀ page ∈ pages, ∀ c ∈ replacePageChanges derive page,
        SafeOrder (replaceRunOps derive false pages) c.1 c.2 := by
  intro pages
  induction pages with
  | nil =>
      intro _ page hpage
      cases hpage
  | cons p ps ih =>
      intro hnodup page hpage c hc
      have hsplit : replaceRunOps derive false (p :: ps) =
          replacePageOps derive false p ++ replaceRunOps derive false ps := by
        simp [replaceRunOps]
      have holdids : replaceRunOldIds derive (p :: ps) =
          (replacePageChanges derive p).map Prod.snd ++ replaceRunOldIds derive ps := by
        simp [replaceRunOldIds]
      rw [holdids] at hnodup
      obtain ⟨hnd1, hnd2, hdisj⟩ := List.nodup_append.mp hnodup
      rcases List.mem_cons.mp hpage with hpp | hpps
      · subst hpp
        have hnil : replacePageChanges derive page ≠ [] := List.ne_nil_of_mem hc
        have hch : (replacePageChanges derive page).isEmpty = false := by
          cases hL : replacePageChanges derive page with
          | nil => exact absurd hL hnil
          | cons y ys => rfl
        have hops : replacePageOps derive false page =
            [.save ((replacePageChanges derive page).map Prod.fst),
             .del ((replacePageChanges derive page).map Prod.snd)] := by
          simp [replacePageOps, hch]
        rw [hsplit, hops]
        exact safeOrder_cons_save (List.mem_map.mpr ⟨c, hc, rfl⟩)
      · have ihs := ih hnd2 page hpps c hc
        rw [hsplit]
        intro pre op suf heq ho
        by_cases hch : (replacePageChanges derive p).isEmpty = true
        · have hops : replacePageOps derive false p = [] := by
            simp [replacePageOps, hch]
          rw [hops] at heq
          simp only [List.nil_append] at heq
          exact ihs pre op suf heq ho
        · have hch2 : (replacePageChanges derive p).isEmpty = false := by
            cases hE : (replacePageChanges derive p).isEmpty
            · rfl
            · exact absurd hE hch
          have hops : replacePageOps derive false p =
              [.save ((replacePageChanges derive p).map Prod.fst),
               .del ((replacePageChanges derive p).map Prod.snd)] := by
            simp [replacePageOps, hch2]
          rw [hops] at heq
          cases pre with
          | nil =>
              injection heq with h1 h2
              subst h1
              simp [opDeletes] at ho
          | cons a pre2 =>
              injection heq with h1 h2
              subst h1
              cases pre2 with
              | nil =>
                  injection h2 with h3 h4
                  subst h3
                  exfalso
                  have hc2 : c.2 ∈ replaceRunOldIds derive ps := by
                    unfold replaceRunOldIds
                    rw [List.mem_flatten]
                    exact ⟨(replacePageChanges derive page).map Prod.snd,
                      List.mem_map.mpr ⟨page, hpps, rfl⟩,
                      List.mem_map.mpr ⟨c, hc, rfl⟩⟩
                  have hc1 : c.2 ∈ (replacePageChanges derive p).map Prod.snd := by
                    simpa [opDeletes] using ho
                  exact hdisj hc1 hc2
              | cons a2 pre3 =>
                  injection h2 with h3 h4
                  subst h3
                  obtain ⟨op2, hop2, hrop2⟩ := ihs pre3 op suf h4 ho
                  exact ⟨op2,
                    List.mem_cons_of_mem _ (List.mem_cons_of_mem _ hop2), hrop2⟩

/-- C4: in executing (non-dry-run) identifier-rewrite runs, the new record
is upserted strictly before its old identifier appears in any delete call:
for replace-objectid-with-slug under pairwise distinct retired identifiers
(objectIDs are unique within an index), and unconditionally for the
duplicate-slug replacement flush, whose single upsert precedes its single
delete. -/
theorem c4_theorem :
    (∀ (derive : String → String) (pages : List (List JSValue)),
        (replaceRunOldIds derive pages).Nodup →
        ∀ page ∈ pages, ∀ c ∈ replacePageChanges derive page,
          SafeOrder (replaceRunOps derive false pages) c.1 c.2)
    ∧ (∀ (groups : List DupGroup), ∀ c ∈ dupReplacements groups,
        SafeOrder (processDuplicateReplacementsOps groups) c.1 c.2) := by
  constructor
  · exact replaceRun_safeOrder
  · intro groups c hc
    have hnil : dupReplacements groups ≠ [] := List.ne_nil_of_mem hc
    have h1 : ((dupReplacements groups).map Prod.fst).isEmpty = false := by
      cases hL : dupReplacements groups with
      | nil => exact absurd hL hnil
      | cons y ys => rfl
    have h2 : ((dupReplacements groups).map Prod.snd).isEmpty = false := by
      cases hL : dupReplacements groups with
      | nil => exact absurd hL hnil
      | cons y ys => rfl
    have hops : processDuplicateReplacementsOps groups =
        [.save ((dupReplacements groups).map Prod.fst),
         .del ((dupReplacements groups).map Prod.snd)] := by
      simp [processDuplicateReplacementsOps, h1, h2]
    rw [hops]
    exact safeOrder_cons_save (List.mem_map.mpr ⟨c, hc, rfl⟩)

/-- C4 witness: both parts applied to concrete one-change runs with
derive(s) = s. -/
theorem c4_theorem_witness :
    SafeOrder
      (replaceRunOps (fun s => s) false
        [[.vObj [("objectID", .vStr "a"), ("title", .vStr "a"),
                 ("slug", .vStr "b"), ("resourceType", .vStr "x")]]])
      (setField [("objectID", .vStr "a"), ("title", .vStr "a"),
                 ("slug", .vStr "b"), ("resourceType", .vStr "x")] "objectID" (.vStr "b"))
      "a"
    ∧ SafeOrder
        (processDuplicateReplacementsOps
          [⟨"b", some [("objectID", .vStr "t1"), ("title", .vStr "T")],
                some [("objectID", .vStr "s1")]⟩])
        (setField [("objectID", .vStr "t1"), ("title", .vStr "T")] "objectID"
          (valueOf [("objectID", .vStr "s1")] "objectID"))
        (objectIDString [("objectID", .vStr "t1"), ("title", .vStr "T")]) := by
  constructor
  · exact c4_theorem.1 (fun s => s)
      [[.vObj [("objectID", .vStr "a"), ("title", .vStr "a"),
               ("slug", .vStr "b"), ("resourceType", .vStr "x")]]]
      (by decide)
      [.vObj [("objectID", .vStr "a"), ("title", .vStr "a"),
              ("slug", .vStr "b"), ("resourceType", .vStr "x")]]
      (List.mem_cons_self _ _)
      (setField [("objectID", .vStr "a"), ("title", .vStr "a"),
                 ("slug", .vStr "b"), ("resourceType", .vStr "x")] "objectID" (.vStr "b"),
       "a")
      (by
        rw [show replacePageChanges (fun s => s)
            [.vObj [("objectID", .vStr "a"), ("title", .vStr "a"),
                    ("slug", .vStr "b"), ("resourceType", .vStr "x")]] =
          [(setField [("objectID", .vStr "a"), ("title", .vStr "a"),
                      ("slug", .vStr "b"), ("resourceType", .vStr "x")] "objectID" (.vStr "b"),
            "a")] from rfl]
        exact List.mem_cons_self _ _)
  · exact c4_theorem.2
      [⟨"b", some [("objectID", .vStr "t1"), ("title", .vStr "T")],
            some [("objectID", .vStr "s1")]⟩]
      (setField [("objectID", .vStr "t1"), ("title", .vStr "T")] "objectID"
         (valueOf [("objectID", .vStr "s1")] "objectID"),
       objectIDString [("objectID", .vStr "t1"), ("title", .vStr "T")])
      (by
        rw [show dupReplacements
            [⟨"b", some [("objectID", .vStr "t1"), ("title", .vStr "T")],
                  some [("objectID", .vStr "s1")]⟩] =
          [(setField [("objectID", .vStr "t1"), ("title", .vStr "T")] "objectID"
              (valueOf [("objectID", .vStr "s1")] "objectID"),
            objectIDString [("objectID", .vStr "t1"), ("title", .vStr "T")])] from rfl]
        exact List.mem_cons_self _ _)
